import Mathlib

/-!
# Verification of the network-settling engine

Shallow embedding of `src/network_settling.py`: a relaxation-labeling
constraint-satisfaction engine over a square grid of probability
distributions.  Python floats are modelled as rationals (`ℚ`); Python lists
as `List ℚ`; the coordinate-keyed dictionary of distributions as a total
function `ℕ × ℕ → List ℚ` (the Python dict holds exactly the in-range keys,
so all statements about distributions are made at in-range cells); the
clamped set as a `Finset (ℕ × ℕ)`.  A Python list assignment
`probs[i] = v`, which supports negative indices and raises `IndexError` out
of range, is embedded as the `Option`-valued `pyset`; `set_clue`, the only
operation that performs such an assignment, is therefore `Option`-valued.
-/

namespace NetworkSettling

attribute [local semireducible] Rat.add Rat.mul Rat.inv Rat.sub

/-- The engine state: the fields of the Python class `NetworkSettling`. -/
structure NetState where
  grid_size : ℕ
  probabilities : ℕ × ℕ → List ℚ
  clamped : Finset (ℕ × ℕ)
  iteration : ℕ
  convergence_threshold : ℚ
  inhibition_strength : ℚ
  is_converged : Bool

/-- Python's `max` on a list (`max(probs)`); the `[]` case raises in Python
and is given the junk value `0` here (never reached on length-positive
distributions). -/
def pymax : List ℚ → ℚ
  | [] => 0
  | h :: t => t.foldl max h

/-- `get_most_likely_value`: the first index attaining the maximum
probability (Python `list.index(max(probs))`), reported 1-indexed, together
with that maximum probability. -/
def get_most_likely_value (s : NetState) (row col : ℕ) : ℕ × ℚ :=
  let probs := s.probabilities (row, col)
  let max_prob := pymax probs
  let max_index := probs.indexOf max_prob
  (max_index + 1, max_prob)

/-- Python list assignment `xs[i] = v`: negative indices count from the
end; an index out of `[-len, len)` raises `IndexError`, embedded as
`none`. -/
def pyset (xs : List ℚ) (i : ℤ) (v : ℚ) : Option (List ℚ) :=
  let j : ℤ := if i < 0 then i + xs.length else i
  if 0 ≤ j ∧ j < (xs.length : ℤ) then some (xs.set j.toNat v) else none

/-- `set_clue(row, col, value)`: builds `[0.0]*grid_size`, assigns `1.0` at
Python index `value - 1` (so via negative indexing for `value ≤ 0`), stores
the result for the cell and adds the cell to the clamped set.  `none` when
the list assignment raises `IndexError` (in which case the Python state is
unchanged, the exception being raised before any mutation). -/
def set_clue (s : NetState) (row col : ℕ) (value : ℤ) : Option NetState :=
  match pyset (List.replicate s.grid_size 0) (value - 1) 1 with
  | none => none
  | some probs => some { s with
      probabilities := Function.update s.probabilities (row, col) probs,
      clamped := insert (row, col) s.clamped }

/-- `remove_clue(row, col)`: discards the cell from the clamped set and
unconditionally resets its distribution to uniform. -/
def remove_clue (s : NetState) (row col : ℕ) : NetState :=
  { s with
      clamped := s.clamped.erase (row, col),
      probabilities := Function.update s.probabilities (row, col)
        (List.replicate s.grid_size (1 / (s.grid_size : ℚ))) }

/-- `is_clamped(row, col)`. -/
def is_clamped (s : NetState) (row col : ℕ) : Bool :=
  decide ((row, col) ∈ s.clamped)

/-- `initialize()`: sets every in-range cell to the uniform distribution,
resets the iteration counter and clears the convergence flag.  (The Python
loop writes exactly the in-range keys; any other key of the dict is left
alone.) -/
def initializeState (s : NetState) : NetState :=
  { s with
      probabilities := fun cell =>
        if cell.1 < s.grid_size ∧ cell.2 < s.grid_size
        then List.replicate s.grid_size (1 / (s.grid_size : ℚ))
        else s.probabilities cell,
      iteration := 0,
      is_converged := false }

/-- The constructor `NetworkSettling(grid_size)`: default threshold 0.001,
default inhibition strength 0.5, then `initialize()`. -/
def create (grid_size : ℕ) : NetState :=
  initializeState
    { grid_size := grid_size
      probabilities := fun _ => []
      clamped := ∅
      iteration := 0
      convergence_threshold := 1 / 1000
      inhibition_strength := 1 / 2
      is_converged := false }

/-- `reset()`: clears the clamped set, then `initialize()`. -/
def reset (s : NetState) : NetState :=
  initializeState { s with clamped := ∅ }

/-- `set_inhibition_strength(strength)`: clamps into `[0, 1]`
(`max(0.0, min(1.0, strength))`). -/
def set_inhibition_strength (s : NetState) (strength : ℚ) : NetState :=
  { s with inhibition_strength := max 0 (min 1 strength) }

/-- `is_value_impossible(row, col, value_idx)`: some other clamped cell in
the same row or the same column has most-likely value `value_idx + 1`. -/
def is_value_impossible (s : NetState) (row col value_idx : ℕ) : Bool :=
  let value := value_idx + 1
  ((List.range s.grid_size).any fun c =>
      decide (c ≠ col) && decide ((row, c) ∈ s.clamped) &&
        decide ((get_most_likely_value s row c).1 = value))
  || ((List.range s.grid_size).any fun r =>
      decide (r ≠ row) && decide ((r, col) ∈ s.clamped) &&
        decide ((get_most_likely_value s r col).1 = value))

/-- `calculate_inhibition(row, col, value_idx)`: the average, over the
unclamped other cells of the row and of the column, of their current
probability for slot `value_idx`; `0` when there is no such cell. -/
def calculate_inhibition (s : NetState) (row col value_idx : ℕ) : ℚ :=
  let rowPeers := (List.range s.grid_size).filter fun c =>
    decide (c ≠ col) && decide ((row, c) ∉ s.clamped)
  let colPeers := (List.range s.grid_size).filter fun r =>
    decide (r ≠ row) && decide ((r, col) ∉ s.clamped)
  let total :=
    (rowPeers.map fun c => (s.probabilities (row, c)).getD value_idx 0).sum
    + (colPeers.map fun r => (s.probabilities (r, col)).getD value_idx 0).sum
  let count := rowPeers.length + colPeers.length
  if 0 < count then total / (count : ℚ) else 0

/-- `normalize(probs)`: divide by the total, or fall back to the uniform
distribution when the total is exactly 0. -/
def normalize (s : NetState) (probs : List ℚ) : List ℚ :=
  let total := probs.sum
  if total = 0 then List.replicate s.grid_size (1 / (s.grid_size : ℚ))
  else probs.map fun p => p / total

/-- The loop body of `calculate_new_probabilities` before normalization:
slot `value_idx` is forced to `0.0` when impossible, otherwise the current
probability damped by the inhibition term and floored at `0.0`. -/
def unnormalized (s : NetState) (row col : ℕ) : List ℚ :=
  (List.range s.grid_size).map fun value_idx =>
    if is_value_impossible s row col value_idx then 0
    else max 0 ((s.probabilities (row, col)).getD value_idx 0 *
      (1 - calculate_inhibition s row col value_idx * s.inhibition_strength))

/-- `calculate_new_probabilities(row, col)`. -/
def calculate_new_probabilities (s : NetState) (row col : ℕ) : List ℚ :=
  normalize s (unnormalized s row col)

/-- `calculate_change(old_probs, new_probs)`: maximum absolute per-slot
difference (`max` over the `zip`). -/
def calculate_change (old_probs new_probs : List ℚ) : ℚ :=
  ((old_probs.zip new_probs).map fun pr => |pr.2 - pr.1|).foldl max 0

/-- All in-range cells, row-major, as iterated by the `step()` loops. -/
def allCells (n : ℕ) : List (ℕ × ℕ) :=
  (List.range n).flatMap fun row => (List.range n).map fun col => (row, col)

/-- `step()`: returns the new state and `max_change`.  When already
converged it returns `0.0` and mutates nothing.  Otherwise every in-range
unclamped cell gets `calculate_new_probabilities` computed from the
previous state (clamped cells are copied unchanged), `max_change` is the
maximum of `calculate_change` over the unclamped cells (starting from
`0.0`), the iteration counter is incremented, and the convergence flag is
set when `max_change < convergence_threshold`. -/
def step (s : NetState) : NetState × ℚ :=
  if s.is_converged then (s, 0)
  else
    let n := s.grid_size
    let new_probabilities : ℕ × ℕ → List ℚ := fun cell =>
      if cell.1 < n ∧ cell.2 < n ∧ cell ∉ s.clamped
      then calculate_new_probabilities s cell.1 cell.2
      else s.probabilities cell
    let max_change := ((allCells n).filter fun cell =>
        decide (cell ∉ s.clamped)).foldl
      (fun acc cell => max acc (calculate_change (s.probabilities cell)
        (calculate_new_probabilities s cell.1 cell.2))) 0
    ({ s with
        probabilities := new_probabilities,
        iteration := s.iteration + 1,
        is_converged := decide (max_change < s.convergence_threshold) },
     max_change)

/-- `k` successive `step()` calls (discarding the returned changes). -/
def stepN : ℕ → NetState → NetState
  | 0, s => s
  | k + 1, s => (step (stepN k s)).1

/-- The row pass of `is_valid_solution`: walks the given columns keeping
the set of most-likely values seen so far; fails on a most-likely
probability below 0.9 or on a repeated value (the Python early
`return False`). -/
def scanRow (s : NetState) (row : ℕ) : List ℕ → Finset ℕ → Bool
  | [], _ => true
  | col :: rest, values =>
    let result := get_most_likely_value s row col
    if result.2 < 9 / 10 then false
    else if result.1 ∈ values then false
    else scanRow s row rest (insert result.1 values)

/-- The column pass of `is_valid_solution`: like the row pass but with no
confidence check. -/
def scanCol (s : NetState) (col : ℕ) : List ℕ → Finset ℕ → Bool
  | [], _ => true
  | row :: rest, values =>
    let result := get_most_likely_value s row col
    if result.1 ∈ values then false
    else scanCol s col rest (insert result.1 values)

/-- `is_valid_solution()`: every row passes the row pass and every column
passes the column pass. -/
def is_valid_solution (s : NetState) : Bool :=
  ((List.range s.grid_size).all fun row =>
    scanRow s row (List.range s.grid_size) ∅)
  && ((List.range s.grid_size).all fun col =>
    scanCol s col (List.range s.grid_size) ∅)

/-- `get_grid()`: row-major most-likely 1-indexed values. -/
def get_grid (s : NetState) : List (List ℕ) :=
  (List.range s.grid_size).map fun row =>
    (List.range s.grid_size).map fun col =>
      (get_most_likely_value s row col).1

/-- Modelled from the spec: "first (lowest) index achieving the maximum" —
the first index whose entry dominates every entry of the list.  Used as the
independent, spec-worded counterpart of the `index(max(...))` computation
inside `get_most_likely_value`. -/
def firstMaxIndex (probs : List ℚ) : ℕ :=
  probs.findIdx fun p => decide (∀ q ∈ probs, q ≤ p)

/-- The serialized state snapshot produced by `to_json` (the JSON string is
modelled as structured data; `clamped` is modelled as the set it
serializes). -/
structure Snapshot where
  grid_size : ℕ
  iteration : ℕ
  is_converged : Bool
  probabilities : List ((ℕ × ℕ) × List ℚ)
  clamped : Finset (ℕ × ℕ)
  grid : List (List ℕ)

/-- `to_json()`. -/
def to_json (s : NetState) : Snapshot :=
  { grid_size := s.grid_size
    iteration := s.iteration
    is_converged := s.is_converged
    probabilities := (allCells s.grid_size).map fun cell =>
      (cell, s.probabilities cell)
    clamped := s.clamped
    grid := get_grid s }

/-- The message of the structured not-initialized error. -/
def notInitializedMsg : String := "Network not initialized"

/-- What a module-level adapter call returns: a structured error object, a
state snapshot, a snapshot with the extra `max_change` field (for `step`),
or a propagated Python exception. -/
inductive ApiResult where
  | error (msg : String)
  | state (snapshot : Snapshot)
  | stateWithChange (snapshot : Snapshot) (max_change : ℚ)
  | raised

/-!
The module-level adapter functions over the global `_network` (modelled as
`Option NetState`: `none` before `create_network`).  Each returns the new
global together with its result.
-/

namespace Api

/-- Module-level `create_network(grid_size)`. -/
def create_network (_g : Option NetState) (grid_size : ℕ) :
    Option NetState × ApiResult :=
  let net := create grid_size
  (some net, ApiResult.state (to_json net))

/-- Module-level `set_clue(row, col, value)`. -/
def set_clue (g : Option NetState) (row col : ℕ) (value : ℤ) :
    Option NetState × ApiResult :=
  match g with
  | none => (none, ApiResult.error notInitializedMsg)
  | some net =>
    match NetworkSettling.set_clue net row col value with
    | none => (some net, ApiResult.raised)
    | some net2 => (some net2, ApiResult.state (to_json net2))

/-- Module-level `remove_clue(row, col)`. -/
def remove_clue (g : Option NetState) (row col : ℕ) :
    Option NetState × ApiResult :=
  match g with
  | none => (none, ApiResult.error notInitializedMsg)
  | some net =>
    let net2 := NetworkSettling.remove_clue net row col
    (some net2, ApiResult.state (to_json net2))

/-- Module-level `step()`. -/
def step (g : Option NetState) : Option NetState × ApiResult :=
  match g with
  | none => (none, ApiResult.error notInitializedMsg)
  | some net =>
    let r := NetworkSettling.step net
    (some r.1, ApiResult.stateWithChange (to_json r.1) r.2)

/-- Module-level `reset()`. -/
def reset (g : Option NetState) : Option NetState × ApiResult :=
  match g with
  | none => (none, ApiResult.error notInitializedMsg)
  | some net =>
    let net2 := NetworkSettling.reset net
    (some net2, ApiResult.state (to_json net2))

/-- Module-level `set_inhibition(strength)`. -/
def set_inhibition (g : Option NetState) (strength : ℚ) :
    Option NetState × ApiResult :=
  match g with
  | none => (none, ApiResult.error notInitializedMsg)
  | some net =>
    let net2 := set_inhibition_strength net strength
    (some net2, ApiResult.state (to_json net2))

/-- Module-level `get_state()`. -/
def get_state (g : Option NetState) : Option NetState × ApiResult :=
  match g with
  | none => (none, ApiResult.error notInitializedMsg)
  | some net => (some net, ApiResult.state (to_json net))

end Api

/-- States reachable from a constructed engine (positive grid size; the
Python constructor divides by `grid_size`, so construction requires it) by
the engine operations, with in-range clue values. -/
inductive Reachable : NetState → Prop where
  | created (n : ℕ) (hn : 1 ≤ n) : Reachable (create n)
  | initialized (s : NetState) (hs : Reachable s) :
      Reachable (initializeState s)
  | wasReset (s : NetState) (hs : Reachable s) : Reachable (reset s)
  | clued (s : NetState) (hs : Reachable s) (row col : ℕ) (v : ℤ)
      (h1 : 1 ≤ v) (h2 : v ≤ (s.grid_size : ℤ)) (s2 : NetState)
      (hset : set_clue s row col v = some s2) : Reachable s2
  | unclued (s : NetState) (hs : Reachable s) (row col : ℕ) :
      Reachable (remove_clue s row col)
  | inhibitionSet (s : NetState) (hs : Reachable s) (q : ℚ) :
      Reachable (set_inhibition_strength s q)
  | stepped (s : NetState) (hs : Reachable s) : Reachable ((step s).1)

/-- The 4×4 scenario of the spec, first clue applied: fresh engine,
`set_clue(0, 0, 1)`. -/
def scenario4_s1 : NetState := (set_clue (create 4) 0 0 1).getD (create 4)

/-- The 4×4 scenario, second clue applied: `set_clue(0, 1, 2)`. -/
def scenario4_s2 : NetState := (set_clue scenario4_s1 0 1 2).getD scenario4_s1

/-- The 4×4 scenario after one `step()`. -/
def scenario4_after : NetState := (step scenario4_s2).1

/-- The normalization invariant: positive grid size, and every in-range
cell's distribution has non-negative entries summing to exactly 1 (the
rational model of "1.0 within floating-point tolerance"). -/
def ProbInvariant (s : NetState) : Prop :=
  1 ≤ s.grid_size ∧
  ∀ r < s.grid_size, ∀ c < s.grid_size,
    (∀ p ∈ s.probabilities (r, c), 0 ≤ p) ∧ (s.probabilities (r, c)).sum = 1

/-- C9: every module-level adapter operation other than `create_network`,
invoked while the global engine is still `none`, returns the structured
`{"error": "Network not initialized"}` result (not an exception) and
leaves the global engine absent. -/
theorem api_not_initialized :
    notInitializedMsg = "Network not initialized" ∧
    (∀ (row col : ℕ) (value : ℤ),
      Api.set_clue none row col value
        = (none, ApiResult.error notInitializedMsg)) ∧
    (∀ row col : ℕ,
      Api.remove_clue none row col
        = (none, ApiResult.error notInitializedMsg)) ∧
    Api.step none = (none, ApiResult.error notInitializedMsg) ∧
    Api.reset none = (none, ApiResult.error notInitializedMsg) ∧
    (∀ q : ℚ,
      Api.set_inhibition none q
        = (none, ApiResult.error notInitializedMsg)) ∧
    Api.get_state none = (none, ApiResult.error notInitializedMsg) :=
  ⟨rfl, fun _ _ _ => rfl, fun _ _ => rfl, rfl, rfl, fun _ => rfl, rfl⟩

/-- C10: for an in-range cell, `set_clue(row, col, 0)` does not raise: the
Python assignment `probs[0 - 1] = 1.0` hits slot `grid_size - 1` via
negative indexing, so the call coincides with `set_clue(row, col,
grid_size)`, the cell's distribution becomes one-hot at the last slot, and
the cell is clamped. -/
theorem set_clue_zero_wraps (s : NetState) (row col : ℕ)
    (hr : row < s.grid_size) (hc : col < s.grid_size) :
    set_clue s row col 0 = set_clue s row col (s.grid_size : ℤ) ∧
    ∃ s2 : NetState, set_clue s row col 0 = some s2 ∧
      s2.probabilities (row, col)
        = (List.replicate s.grid_size (0 : ℚ)).set (s.grid_size - 1) 1 ∧
      (row, col) ∈ s2.clamped := by
  have hn : 1 ≤ s.grid_size := by omega
  have heq : set_clue s row col 0 = some { s with
      probabilities := Function.update s.probabilities (row, col)
        ((List.replicate s.grid_size (0 : ℚ)).set (s.grid_size - 1) 1),
      clamped := insert (row, col) s.clamped } := by
    simp only [set_clue, pyset, List.length_replicate]
    rw [if_pos (show ((0 : ℤ) - 1 < 0) by omega)]
    rw [if_pos (show ((0 : ℤ) ≤ 0 - 1 + (s.grid_size : ℤ) ∧
      0 - 1 + (s.grid_size : ℤ) < (s.grid_size : ℤ)) from ⟨by omega, by omega⟩)]
    rw [show ((0 : ℤ) - 1 + (s.grid_size : ℤ)).toNat = s.grid_size - 1 by omega]
  have heq2 : set_clue s row col (s.grid_size : ℤ) = some { s with
      probabilities := Function.update s.probabilities (row, col)
        ((List.replicate s.grid_size (0 : ℚ)).set (s.grid_size - 1) 1),
      clamped := insert (row, col) s.clamped } := by
    simp only [set_clue, pyset, List.length_replicate]
    rw [if_neg (show ¬((s.grid_size : ℤ) - 1 < 0) by omega)]
    rw [if_pos (show ((0 : ℤ) ≤ (s.grid_size : ℤ) - 1 ∧
      (s.grid_size : ℤ) - 1 < (s.grid_size : ℤ)) from ⟨by omega, by omega⟩)]
    rw [show ((s.grid_size : ℤ) - 1).toNat = s.grid_size - 1 by omega]
  refine ⟨heq.trans heq2.symm, _, heq, ?_, ?_⟩
  · simp [Function.update_same]
  · simp

/-- Witness for C10 at a fresh 2×2 engine and cell (0, 0): `set_clue` with
value 0 equals `set_clue` with value 2 and produces the one-hot `[0, 1]`
clamped cell. -/
theorem set_clue_zero_wraps_witness :
    (0 < (create 2).grid_size ∧ 0 < (create 2).grid_size) ∧
    (set_clue (create 2) 0 0 0 = set_clue (create 2) 0 0 ((create 2).grid_size : ℤ) ∧
    ∃ s2 : NetState, set_clue (create 2) 0 0 0 = some s2 ∧
      s2.probabilities (0, 0)
        = (List.replicate (create 2).grid_size (0 : ℚ)).set ((create 2).grid_size - 1) 1 ∧
      (0, 0) ∈ s2.clamped) :=
  ⟨⟨by decide, by decide⟩,
    set_clue_zero_wraps (create 2) 0 0 (by decide) (by decide)⟩

/-- C7 (scenario, 4×4): with clues `set_clue(0,0,1)` and `set_clue(0,1,2)`
and one `step()`, the cells (0,2) and (0,3) have probability exactly 0 at
slots 0 and 1, and their two remaining entries are equal and sum to 1. -/
theorem scenario_grid4 :
    (set_clue (create 4) 0 0 1).isSome = true ∧
    (set_clue scenario4_s1 0 1 2).isSome = true ∧
    ((scenario4_after.probabilities (0, 2)).getD 0 0 = 0 ∧
      (scenario4_after.probabilities (0, 2)).getD 1 0 = 0 ∧
      (scenario4_after.probabilities (0, 2)).getD 2 0
        + (scenario4_after.probabilities (0, 2)).getD 3 0 = 1 ∧
      (scenario4_after.probabilities (0, 2)).getD 2 0
        = (scenario4_after.probabilities (0, 2)).getD 3 0) ∧
    ((scenario4_after.probabilities (0, 3)).getD 0 0 = 0 ∧
      (scenario4_after.probabilities (0, 3)).getD 1 0 = 0 ∧
      (scenario4_after.probabilities (0, 3)).getD 2 0
        + (scenario4_after.probabilities (0, 3)).getD 3 0 = 1 ∧
      (scenario4_after.probabilities (0, 3)).getD 2 0
        = (scenario4_after.probabilities (0, 3)).getD 3 0) := by
  decide

/-- C1 counterexample: on a 2×2 engine with the single clue (0,0)↦1, after
one `step()` the non-clamped cell (0,1) holds [0, 1]; `remove_clue(0, 1)`
is then not a no-op — it resets that distribution to the uniform
[1/2, 1/2] even though (0,1) was never clamped. -/
theorem remove_clue_not_noop :
    let s1 := (set_clue (create 2) 0 0 1).getD (create 2)
    let s2 := (step s1).1
    (0, 1) ∉ s2.clamped ∧
    s2.probabilities (0, 1) = [0, 1] ∧
    (remove_clue s2 0 1).probabilities (0, 1) = [1 / 2, 1 / 2] := by
  decide

/-- C1 as amended: `remove_clue` on a non-clamped cell raises no error and
leaves the clamped set, the iteration counter, the convergence flag, the
grid size, the inhibition strength, the threshold, and every other cell's
distribution unchanged — but it does reset the target cell's distribution
to uniform (so it is a no-op only when that distribution was already
uniform). -/
theorem remove_clue_unclamped_frame (s : NetState) (row col : ℕ)
    (h : (row, col) ∉ s.clamped) :
    (remove_clue s row col).clamped = s.clamped ∧
    (remove_clue s row col).probabilities (row, col)
      = List.replicate s.grid_size (1 / (s.grid_size : ℚ)) ∧
    (∀ cell : ℕ × ℕ, cell ≠ (row, col) →
      (remove_clue s row col).probabilities cell = s.probabilities cell) ∧
    (remove_clue s row col).iteration = s.iteration ∧
    (remove_clue s row col).is_converged = s.is_converged ∧
    (remove_clue s row col).grid_size = s.grid_size ∧
    (remove_clue s row col).inhibition_strength = s.inhibition_strength ∧
    (remove_clue s row col).convergence_threshold = s.convergence_threshold := by
  refine ⟨Finset.erase_eq_of_not_mem h, by simp [remove_clue],
    fun cell hne => ?_, rfl, rfl, rfl, rfl, rfl⟩
  simp [remove_clue, Function.update_noteq hne]

/-- Witness for the amended C1 at a fresh 2×2 engine and the non-clamped
cell (0, 1). -/
theorem remove_clue_unclamped_frame_witness :
    (0, 1) ∉ (create 2).clamped ∧
    ((remove_clue (create 2) 0 1).clamped = (create 2).clamped ∧
    (remove_clue (create 2) 0 1).probabilities (0, 1)
      = List.replicate (create 2).grid_size (1 / ((create 2).grid_size : ℚ)) ∧
    (∀ cell : ℕ × ℕ, cell ≠ (0, 1) →
      (remove_clue (create 2) 0 1).probabilities cell
        = (create 2).probabilities cell) ∧
    (remove_clue (create 2) 0 1).iteration = (create 2).iteration ∧
    (remove_clue (create 2) 0 1).is_converged = (create 2).is_converged ∧
    (remove_clue (create 2) 0 1).grid_size = (create 2).grid_size ∧
    (remove_clue (create 2) 0 1).inhibition_strength
      = (create 2).inhibition_strength ∧
    (remove_clue (create 2) 0 1).convergence_threshold
      = (create 2).convergence_threshold) :=
  ⟨by decide, remove_clue_unclamped_frame (create 2) 0 1 (by decide)⟩

/-- C2 counterexample: after `set_inhibition_strength(4/5)`, `reset()`
keeps the inhibition strength at 4/5 while a fresh engine of the same grid
size has the construction value 1/2 — so reset does not restore every
field to its construction value. -/
theorem reset_keeps_inhibition :
    (reset (set_inhibition_strength (create 2) (4 / 5))).inhibition_strength
      = 4 / 5 ∧
    (create 2).inhibition_strength = 1 / 2 := by
  decide

/-- C2 as amended: `reset()` restores uniform distributions in every
in-range cell, the empty clamped set, iteration 0 and a cleared
convergence flag — exactly the fields a fresh construction with the same
`grid_size` has — but it leaves the inhibition-strength parameter (and the
convergence threshold, which no operation ever modifies) at their current
values rather than at their construction values. -/
theorem reset_fresh_except_inhibition (s : NetState) (r c : ℕ)
    (hr : r < s.grid_size) (hc : c < s.grid_size) :
    (reset s).grid_size = (create s.grid_size).grid_size ∧
    (reset s).probabilities (r, c) = (create s.grid_size).probabilities (r, c) ∧
    (reset s).clamped = (create s.grid_size).clamped ∧
    (reset s).iteration = (create s.grid_size).iteration ∧
    (reset s).is_converged = (create s.grid_size).is_converged ∧
    (reset s).inhibition_strength = s.inhibition_strength ∧
    (reset s).convergence_threshold = s.convergence_threshold := by
  refine ⟨rfl, ?_, rfl, rfl, rfl, rfl, rfl⟩
  simp [reset, create, initializeState, hr, hc]

/-- Witness for the amended C2 at a 2×2 engine whose inhibition strength
was changed to 4/5 before the reset. -/
theorem reset_fresh_except_inhibition_witness :
    (0 < (set_inhibition_strength (create 2) (4 / 5)).grid_size ∧
      0 < (set_inhibition_strength (create 2) (4 / 5)).grid_size) ∧
    ((reset (set_inhibition_strength (create 2) (4 / 5))).grid_size
        = (create (set_inhibition_strength (create 2) (4 / 5)).grid_size).grid_size ∧
    (reset (set_inhibition_strength (create 2) (4 / 5))).probabilities (0, 0)
        = (create (set_inhibition_strength (create 2) (4 / 5)).grid_size).probabilities (0, 0) ∧
    (reset (set_inhibition_strength (create 2) (4 / 5))).clamped
        = (create (set_inhibition_strength (create 2) (4 / 5)).grid_size).clamped ∧
    (reset (set_inhibition_strength (create 2) (4 / 5))).iteration
        = (create (set_inhibition_strength (create 2) (4 / 5)).grid_size).iteration ∧
    (reset (set_inhibition_strength (create 2) (4 / 5))).is_converged
        = (create (set_inhibition_strength (create 2) (4 / 5)).grid_size).is_converged ∧
    (reset (set_inhibition_strength (create 2) (4 / 5))).inhibition_strength
        = (set_inhibition_strength (create 2) (4 / 5)).inhibition_strength ∧
    (reset (set_inhibition_strength (create 2) (4 / 5))).convergence_threshold
        = (set_inhibition_strength (create 2) (4 / 5)).convergence_threshold) :=
  ⟨⟨by decide, by decide⟩,
    reset_fresh_except_inhibition (set_inhibition_strength (create 2) (4 / 5))
      0 0 (by decide) (by decide)⟩

/-- On a converged state `step()` is the identity and returns 0. -/
theorem step_converged_eq (s : NetState) (h : s.is_converged = true) :
    step s = (s, 0) := by
  simp [step, h]

/-- C6: once the convergence flag is set, `step()` returns the very same
state paired with a `max_change` of 0 — so no distribution, the iteration
counter, the clamped set and the flag itself are all untouched — and any
number of further steps leaves the state fixed. -/
theorem converged_step_returns_zero (s : NetState) (k : ℕ)
    (h : s.is_converged = true) :
    step s = (s, 0) ∧ stepN k s = s := by
  have h1 : step s = (s, 0) := step_converged_eq s h
  refine ⟨h1, ?_⟩
  induction k with
  | zero => rfl
  | succ k ih =>
    show (step (stepN k s)).1 = s
    rw [ih, h1]

/-- Witness for C6: a 1×1 engine converges after its first step; stepping
that converged state again is the identity with result 0. -/
theorem converged_step_returns_zero_witness :
    (step (create 1)).1.is_converged = true ∧
    (step (step (create 1)).1 = ((step (create 1)).1, 0) ∧
      stepN 2 (step (create 1)).1 = (step (create 1)).1) :=
  ⟨by decide, converged_step_returns_zero _ 2 (by decide)⟩

/-- `step()` never changes the clamped set. -/
theorem step_fst_clamped (s : NetState) : (step s).1.clamped = s.clamped := by
  unfold step
  split <;> rfl

/-- `step()` copies a clamped cell's distribution unchanged. -/
theorem step_fst_probabilities_clamped (s : NetState) (cell : ℕ × ℕ)
    (h : cell ∈ s.clamped) :
    (step s).1.probabilities cell = s.probabilities cell := by
  unfold step
  split
  · rfl
  · show (if cell.1 < s.grid_size ∧ cell.2 < s.grid_size ∧ cell ∉ s.clamped
        then calculate_new_probabilities s cell.1 cell.2
        else s.probabilities cell) = s.probabilities cell
    rw [if_neg (by simp [h])]

/-- C4: a clamped cell's distribution is unchanged by any number of
`step()` calls, and the cell stays clamped throughout (only `remove_clue`
removes it). -/
theorem clamped_cell_unchanged (s : NetState) (cell : ℕ × ℕ)
    (h : cell ∈ s.clamped) (k : ℕ) :
    (stepN k s).probabilities cell = s.probabilities cell ∧
    cell ∈ (stepN k s).clamped := by
  induction k with
  | zero => exact ⟨rfl, h⟩
  | succ k ih =>
    obtain ⟨hp, hm⟩ := ih
    constructor
    · show (step (stepN k s)).1.probabilities cell = s.probabilities cell
      rw [step_fst_probabilities_clamped _ _ hm, hp]
    · show cell ∈ (step (stepN k s)).1.clamped
      rw [step_fst_clamped]
      exact hm

/-- Witness for C4: the clamped clue (0,0)↦1 on a 2×2 engine is intact
after three steps. -/
theorem clamped_cell_unchanged_witness :
    (0, 0) ∈ ((set_clue (create 2) 0 0 1).getD (create 2)).clamped ∧
    ((stepN 3 ((set_clue (create 2) 0 0 1).getD (create 2))).probabilities (0, 0)
        = ((set_clue (create 2) 0 0 1).getD (create 2)).probabilities (0, 0) ∧
      (0, 0) ∈ (stepN 3 ((set_clue (create 2) 0 0 1).getD (create 2))).clamped) :=
  ⟨by decide, clamped_cell_unchanged _ _ (by decide) 3⟩

/-- On a non-converged state, `step()` recomputes every in-range unclamped
cell with `calculate_new_probabilities`. -/
theorem step_fst_probabilities_unclamped (s : NetState) (row col : ℕ)
    (hconv : s.is_converged = false) (hr : row < s.grid_size)
    (hc : col < s.grid_size) (hcl : (row, col) ∉ s.clamped) :
    (step s).1.probabilities (row, col)
      = calculate_new_probabilities s row col := by
  unfold step
  rw [if_neg (by simp [hconv])]
  show (if (row, col).1 < s.grid_size ∧ (row, col).2 < s.grid_size ∧
      (row, col) ∉ s.clamped
      then calculate_new_probabilities s (row, col).1 (row, col).2
      else s.probabilities (row, col)) = _
  rw [if_pos ⟨hr, hc, hcl⟩]

/-- A clamped cell in the same row or column whose most-likely value is
`vidx + 1` makes slot `vidx` impossible. -/
theorem is_value_impossible_of_clamped_peer (s : NetState)
    (ar ac br bc vidx : ℕ)
    (hA : (ar, ac) ∈ s.clamped) (hABne : (ar, ac) ≠ (br, bc))
    (har : ar < s.grid_size) (hac : ac < s.grid_size)
    (hshare : ar = br ∨ ac = bc)
    (hval : (get_most_likely_value s ar ac).1 = vidx + 1) :
    is_value_impossible s br bc vidx = true := by
  unfold is_value_impossible
  rw [Bool.or_eq_true, List.any_eq_true, List.any_eq_true]
  rcases hshare with hrow | hcol
  · left
    refine ⟨ac, List.mem_range.mpr hac, ?_⟩
    subst hrow
    have hne : ac ≠ bc := fun h => hABne (by rw [h])
    simp [hne, hA, hval]
  · right
    refine ⟨ar, List.mem_range.mpr har, ?_⟩
    subst hcol
    have hne : ar ≠ br := fun h => hABne (by rw [h])
    simp [hne, hA, hval]

/-- `getD` through a `map` over `List.range`. -/
theorem getD_map_range (n i : ℕ) (f : ℕ → ℚ) (hi : i < n) :
    ((List.range n).map f).getD i 0 = f i := by
  rw [List.getD_eq_getElem _ _ (by simpa using hi), List.getElem_map,
    List.getElem_range]

/-- `getD` through the division map of `normalize`. -/
theorem getD_map_div (l : List ℚ) (t : ℚ) (i : ℕ) (hi : i < l.length) :
    (l.map fun p => p / t).getD i 0 = l.getD i 0 / t := by
  rw [List.getD_eq_getElem _ _ (by simpa using hi), List.getElem_map,
    List.getD_eq_getElem _ _ hi]

/-- When the pre-normalization entries do not sum to zero, an impossible
slot of `calculate_new_probabilities` is exactly 0. -/
theorem calculate_new_probabilities_getD (s : NetState) (row col vidx : ℕ)
    (hv : vidx < s.grid_size)
    (hsum : (unnormalized s row col).sum ≠ 0)
    (himp : is_value_impossible s row col vidx = true) :
    (calculate_new_probabilities s row col).getD vidx 0 = 0 := by
  simp only [calculate_new_probabilities, normalize]
  rw [if_neg hsum]
  have hlen : (unnormalized s row col).length = s.grid_size := by
    simp [unnormalized]
  rw [getD_map_div _ _ _ (by rw [hlen]; exact hv)]
  unfold unnormalized
  rw [getD_map_range _ _ _ hv]
  simp [himp]

/-- C3 counterexample: 2×2 engine with clues (0,0)↦1 and (1,1)↦2.  Cell
B = (0,1) is unclamped and shares the row of A = (0,0), which is clamped
to X = 1; yet after one `step()` B's probability at the slot of value 1 is
1/2, not 0 — both candidate values of B are impossible, so `normalize`'s
zero-sum fallback resets B to uniform. -/
theorem impossibility_fallback_cex :
    let s1 := (set_clue (create 2) 0 0 1).getD (create 2)
    let s2 := (set_clue s1 1 1 2).getD s1
    let s3 := (step s2).1
    (0, 0) ∈ s2.clamped ∧
    (get_most_likely_value s2 0 0).1 = 1 ∧
    (0, 1) ∉ s2.clamped ∧
    s2.is_converged = false ∧
    (s3.probabilities (0, 1)).getD 0 0 = 1 / 2 := by
  decide

/-- C3 as amended: in a non-converged state with an in-range cell A
clamped with most-likely value `vidx + 1` and a different in-range
unclamped cell B sharing A's row or column, one `step()` forces B's
probability at slot `vidx` to exactly 0 — provided B's pre-normalization
entries do not all vanish (otherwise `normalize` falls back to the uniform
distribution and the slot gets `1/grid_size` instead). -/
theorem impossible_value_zero_after_step (s : NetState)
    (ar ac br bc vidx : ℕ)
    (hconv : s.is_converged = false)
    (hA : (ar, ac) ∈ s.clamped) (hB : (br, bc) ∉ s.clamped)
    (har : ar < s.grid_size) (hac : ac < s.grid_size)
    (hbr : br < s.grid_size) (hbc : bc < s.grid_size)
    (hshare : ar = br ∨ ac = bc)
    (hval : (get_most_likely_value s ar ac).1 = vidx + 1)
    (hv : vidx < s.grid_size)
    (hsum : (unnormalized s br bc).sum ≠ 0) :
    ((step s).1.probabilities (br, bc)).getD vidx 0 = 0 := by
  have hABne : (ar, ac) ≠ (br, bc) := fun hEq => hB (hEq ▸ hA)
  rw [step_fst_probabilities_unclamped s br bc hconv hbr hbc hB]
  exact calculate_new_probabilities_getD s br bc vidx hv hsum
    (is_value_impossible_of_clamped_peer s ar ac br bc vidx hA hABne har hac
      hshare hval)

/-- Witness for the amended C3: 2×2 engine, single clue (0,0)↦1,
B = (0,1): after one step B's slot for value 1 is exactly 0. -/
theorem impossible_value_zero_after_step_witness :
    (((set_clue (create 2) 0 0 1).getD (create 2)).is_converged = false ∧
     (0, 0) ∈ ((set_clue (create 2) 0 0 1).getD (create 2)).clamped ∧
     (0, 1) ∉ ((set_clue (create 2) 0 0 1).getD (create 2)).clamped ∧
     (get_most_likely_value ((set_clue (create 2) 0 0 1).getD (create 2)) 0 0).1
       = 0 + 1 ∧
     (unnormalized ((set_clue (create 2) 0 0 1).getD (create 2)) 0 1).sum ≠ 0) ∧
    ((step ((set_clue (create 2) 0 0 1).getD (create 2))).1.probabilities
      (0, 1)).getD 0 0 = 0 :=
  ⟨⟨by decide, by decide, by decide, by decide, by decide⟩,
    impossible_value_zero_after_step _ 0 0 0 1 0 (by decide) (by decide)
      (by decide) (by decide) (by decide) (by decide) (by decide) (Or.inl rfl)
      (by decide) (by decide) (by decide)⟩

/-- The uniform distribution has non-negative entries. -/
theorem uniform_nonneg (n : ℕ) :
    ∀ p ∈ List.replicate n ((1 : ℚ) / n), 0 ≤ p := by
  intro p hp
  rw [List.eq_of_mem_replicate hp]
  positivity

/-- The uniform distribution over a positive grid sums to 1. -/
theorem uniform_sum (n : ℕ) (hn : 1 ≤ n) :
    (List.replicate n ((1 : ℚ) / n)).sum = 1 := by
  rw [List.sum_replicate, nsmul_eq_mul, mul_one_div]
  exact div_self (Nat.cast_ne_zero.mpr (by omega))

/-- A one-hot vector has non-negative entries. -/
theorem onehot_nonneg (n j : ℕ) :
    ∀ p ∈ (List.replicate n (0 : ℚ)).set j 1, 0 ≤ p := by
  intro p hp
  rcases List.mem_or_eq_of_mem_set hp with h | h
  · rw [List.eq_of_mem_replicate h]
  · rw [h]
    norm_num

/-- A one-hot vector with its hot slot in range sums to 1. -/
theorem onehot_sum (n j : ℕ) (hj : j < n) :
    ((List.replicate n (0 : ℚ)).set j 1).sum = 1 := by
  induction n generalizing j with
  | zero => omega
  | succ n ih =>
    cases j with
    | zero => simp [List.replicate_succ, List.sum_replicate]
    | succ j =>
      rw [List.replicate_succ, List.set_cons_succ, List.sum_cons,
        ih j (by omega)]
      norm_num

/-- The sum of a list divided elementwise. -/
theorem sum_map_div (l : List ℚ) (t : ℚ) :
    (l.map fun p => p / t).sum = l.sum / t := by
  induction l with
  | nil => simp
  | cons a l ih => simp [ih, add_div]

/-- `normalize` of a non-negative list yields a non-negative distribution
summing to 1 (using the uniform fallback if everything vanished). -/
theorem normalize_invariant (s : NetState) (l : List ℚ)
    (hn : 1 ≤ s.grid_size) (hl : ∀ p ∈ l, 0 ≤ p) :
    (∀ p ∈ normalize s l, 0 ≤ p) ∧ (normalize s l).sum = 1 := by
  simp only [normalize]
  by_cases h : l.sum = 0
  · rw [if_pos h]
    exact ⟨uniform_nonneg _, uniform_sum _ hn⟩
  · rw [if_neg h]
    have hpos : 0 < l.sum := lt_of_le_of_ne (List.sum_nonneg hl) (Ne.symm h)
    constructor
    · intro p hp
      rcases List.mem_map.mp hp with ⟨q, hq, rfl⟩
      exact div_nonneg (hl q hq) hpos.le
    · rw [sum_map_div, div_self h]

/-- Every pre-normalization entry of the update rule is non-negative
(forced 0 or floored by `max(0.0, ...)`). -/
theorem unnormalized_nonneg (s : NetState) (row col : ℕ) :
    ∀ p ∈ unnormalized s row col, 0 ≤ p := by
  intro p hp
  rcases List.mem_map.mp hp with ⟨v, _, rfl⟩
  split
  · exact le_refl 0
  · exact le_max_left 0 _

/-- `set_clue` with an in-range 1-indexed value: the cell becomes one-hot
at slot `value - 1` and is clamped. -/
theorem set_clue_inrange (s : NetState) (row col : ℕ) (v : ℤ)
    (h1 : 1 ≤ v) (h2 : v ≤ (s.grid_size : ℤ)) :
    set_clue s row col v = some { s with
      probabilities := Function.update s.probabilities (row, col)
        ((List.replicate s.grid_size (0 : ℚ)).set (v - 1).toNat 1),
      clamped := insert (row, col) s.clamped } := by
  simp only [set_clue, pyset, List.length_replicate]
  rw [if_neg (show ¬(v - 1 < 0) by omega)]
  rw [if_pos (show (0 : ℤ) ≤ v - 1 ∧ v - 1 < (s.grid_size : ℤ) from
    ⟨by omega, by omega⟩)]

/-- `step()` never changes the grid size. -/
theorem step_fst_grid_size (s : NetState) :
    (step s).1.grid_size = s.grid_size := by
  unfold step
  split <;> rfl

/-- `initializeState` sets every in-range cell to uniform. -/
theorem initializeState_probabilities (s : NetState) (r c : ℕ)
    (hr : r < s.grid_size) (hc : c < s.grid_size) :
    (initializeState s).probabilities (r, c)
      = List.replicate s.grid_size (1 / (s.grid_size : ℚ)) := by
  simp [initializeState, hr, hc]

/-- `initializeState` establishes the normalization invariant. -/
theorem initializeState_invariant (s : NetState) (hn : 1 ≤ s.grid_size) :
    ProbInvariant (initializeState s) := by
  refine ⟨hn, fun r hr c hc => ?_⟩
  rw [initializeState_probabilities s r c hr hc]
  exact ⟨uniform_nonneg _, uniform_sum _ hn⟩

/-- C5: in every state reachable by `create`, `initialize`, `reset`,
in-range `set_clue`, `remove_clue`, `set_inhibition_strength` and `step`,
every in-range cell's distribution has non-negative entries summing to
exactly 1. -/
theorem reachable_prob_invariant (s : NetState) (h : Reachable s) :
    ProbInvariant s := by
  induction h with
  | created n hn => exact initializeState_invariant _ hn
  | initialized s hs ih => exact initializeState_invariant s ih.1
  | wasReset s hs ih => exact initializeState_invariant _ ih.1
  | clued s hs row col v h1 h2 s2 hset ih =>
    rw [set_clue_inrange s row col v h1 h2] at hset
    injection hset with hEq
    subst hEq
    refine ⟨ih.1, fun r hr c hc => ?_⟩
    show (∀ p ∈ Function.update s.probabilities (row, col)
        ((List.replicate s.grid_size (0 : ℚ)).set (v - 1).toNat 1) (r, c),
        0 ≤ p) ∧
      (Function.update s.probabilities (row, col)
        ((List.replicate s.grid_size (0 : ℚ)).set (v - 1).toNat 1) (r, c)).sum
        = 1
    by_cases hcell : (r, c) = (row, col)
    · rw [hcell, Function.update_same]
      exact ⟨onehot_nonneg _ _, onehot_sum _ _ (by omega)⟩
    · rw [Function.update_noteq hcell]
      exact ih.2 r hr c hc
  | unclued s hs row col ih =>
    refine ⟨ih.1, fun r hr c hc => ?_⟩
    show (∀ p ∈ Function.update s.probabilities (row, col)
        (List.replicate s.grid_size (1 / (s.grid_size : ℚ))) (r, c),
        0 ≤ p) ∧
      (Function.update s.probabilities (row, col)
        (List.replicate s.grid_size (1 / (s.grid_size : ℚ))) (r, c)).sum = 1
    by_cases hcell : (r, c) = (row, col)
    · rw [hcell, Function.update_same]
      exact ⟨uniform_nonneg _, uniform_sum _ ih.1⟩
    · rw [Function.update_noteq hcell]
      exact ih.2 r hr c hc
  | inhibitionSet s hs q ih => exact ih
  | stepped s hs ih =>
    cases hcv : s.is_converged with
    | true =>
      rw [step_converged_eq s hcv]
      exact ih
    | false =>
      have hg : (step s).1.grid_size = s.grid_size := step_fst_grid_size s
      refine ⟨by rw [hg]; exact ih.1, fun r hr c hc => ?_⟩
      rw [hg] at hr hc
      by_cases hcl : (r, c) ∈ s.clamped
      · rw [step_fst_probabilities_clamped s (r, c) hcl]
        exact ih.2 r hr c hc
      · rw [step_fst_probabilities_unclamped s r c hcv hr hc hcl]
        exact normalize_invariant s _ ih.1 (unnormalized_nonneg s r c)

/-- Witness for C5: the invariant holds at the freshly constructed 2×2
engine, a reachable state. -/
theorem reachable_prob_invariant_witness : ProbInvariant (create 2) :=
  reachable_prob_invariant (create 2) (Reachable.created 2 (by omega))

/-- A left fold of `max` lands on the seed or a list element. -/
theorem foldl_max_mem (t : List ℚ) (h : ℚ) : t.foldl max h ∈ h :: t := by
  induction t generalizing h with
  | nil => exact List.mem_singleton.mpr rfl
  | cons a t ih =>
    rw [List.foldl_cons]
    rcases List.mem_cons.mp (ih (max h a)) with hm | hm
    · rcases max_choice h a with hc | hc
      · rw [hm, hc]
        exact List.mem_cons_self _ _
      · rw [hm, hc]
        exact List.mem_cons_of_mem _ (List.mem_cons_self _ _)
    · exact List.mem_cons_of_mem _ (List.mem_cons_of_mem _ hm)

/-- A left fold of `max` dominates the seed and every element. -/
theorem le_foldl_max (t : List ℚ) (h : ℚ) : ∀ x ∈ h :: t, x ≤ t.foldl max h := by
  induction t generalizing h with
  | nil =>
    intro x hx
    rw [List.mem_singleton.mp hx]
    exact le_refl h
  | cons a t ih =>
    intro x hx
    rw [List.foldl_cons]
    rcases List.mem_cons.mp hx with rfl | hx2
    · exact le_trans (le_max_left x a) (ih (max x a) _ (List.mem_cons_self _ _))
    · rcases List.mem_cons.mp hx2 with rfl | hx3
      · exact le_trans (le_max_right h x) (ih (max h x) _ (List.mem_cons_self _ _))
      · exact ih (max h a) x (List.mem_cons_of_mem _ hx3)

/-- Python's `max` of a nonempty list is an element of it. -/
theorem pymax_mem (l : List ℚ) (hl : l ≠ []) : pymax l ∈ l := by
  cases l with
  | nil => exact absurd rfl hl
  | cons h t => exact foldl_max_mem t h

/-- Python's `max` of a nonempty list dominates every element. -/
theorem le_pymax (l : List ℚ) (hl : l ≠ []) : ∀ x ∈ l, x ≤ pymax l := by
  cases l with
  | nil => exact absurd rfl hl
  | cons h t => exact le_foldl_max t h

/-- `findIdx` only depends on the predicate's values on the list. -/
theorem findIdx_congr (l : List ℚ) (p q : ℚ → Bool)
    (h : ∀ x ∈ l, p x = q x) : l.findIdx p = l.findIdx q := by
  induction l with
  | nil => rfl
  | cons a t ih =>
    rw [List.findIdx_cons, List.findIdx_cons, h a (List.mem_cons_self a t),
      ih fun x hx => h x (List.mem_cons_of_mem _ hx)]

/-- Python's `list.index(max(l))` is the first index achieving the
maximum, i.e. `firstMaxIndex`. -/
theorem indexOf_pymax_eq (l : List ℚ) (hl : l ≠ []) :
    l.indexOf (pymax l) = firstMaxIndex l := by
  unfold firstMaxIndex
  show l.findIdx (· == pymax l) = _
  apply findIdx_congr
  intro x hx
  have hiff : x = pymax l ↔ ∀ q ∈ l, q ≤ x := by
    constructor
    · rintro rfl
      exact le_pymax l hl
    · intro hq
      exact le_antisymm (le_pymax l hl x hx) (hq (pymax l) (pymax_mem l hl))
  rw [Bool.eq_iff_iff]
  simp only [beq_iff_eq, decide_eq_true_eq]
  exact hiff

/-- The entry at the index of the maximum is the maximum. -/
theorem getD_indexOf_pymax (l : List ℚ) (hl : l ≠ []) :
    l.getD (l.indexOf (pymax l)) 0 = pymax l := by
  have hm : pymax l ∈ l := pymax_mem l hl
  have hlt : l.indexOf (pymax l) < l.length := List.indexOf_lt_length.mpr hm
  rw [List.getD_eq_getElem _ _ hlt]
  exact List.getElem_indexOf hlt

/-- `get_most_likely_value` on a nonempty distribution: the 1-indexed
first index achieving the maximum, and the entry there. -/
theorem gmlv_eq (s : NetState) (row col : ℕ)
    (hne : s.probabilities (row, col) ≠ []) :
    get_most_likely_value s row col
      = (firstMaxIndex (s.probabilities (row, col)) + 1,
         (s.probabilities (row, col)).getD
           (firstMaxIndex (s.probabilities (row, col))) 0) := by
  unfold get_most_likely_value
  rw [← indexOf_pymax_eq _ hne, getD_indexOf_pymax _ hne]

/-- Loop characterization of the row pass of `is_valid_solution`. -/
theorem scanRow_iff (s : NetState) (row : ℕ) (cols : List ℕ)
    (seen : Finset ℕ) :
    scanRow s row cols seen = true ↔
      (∀ col ∈ cols, 9 / 10 ≤ (get_most_likely_value s row col).2) ∧
      (cols.map fun col => (get_most_likely_value s row col).1).Nodup ∧
      (∀ col ∈ cols, (get_most_likely_value s row col).1 ∉ seen) := by
  induction cols generalizing seen with
  | nil => simp [scanRow]
  | cons col rest ih =>
    simp only [scanRow]
    by_cases h1 : (get_most_likely_value s row col).2 < 9 / 10
    · rw [if_pos h1]
      simp only [Bool.false_eq_true, false_iff]
      rintro ⟨hconf, _, _⟩
      exact absurd (hconf col (List.mem_cons_self col rest)) (not_le.mpr h1)
    · rw [if_neg h1]
      by_cases h2 : (get_most_likely_value s row col).1 ∈ seen
      · rw [if_pos h2]
        simp only [Bool.false_eq_true, false_iff]
        rintro ⟨_, _, hseen⟩
        exact hseen col (List.mem_cons_self col rest) h2
      · rw [if_neg h2, ih (insert (get_most_likely_value s row col).1 seen)]
        constructor
        · rintro ⟨hconf, hnodup, hnew⟩
          refine ⟨?_, ?_, ?_⟩
          · intro c hc
            rcases List.mem_cons.mp hc with rfl | hc2
            · exact not_lt.mp h1
            · exact hconf c hc2
          · rw [List.map_cons, List.nodup_cons]
            refine ⟨?_, hnodup⟩
            intro hmem
            rcases List.mem_map.mp hmem with ⟨c, hc, hcv⟩
            have := hnew c hc
            rw [hcv] at this
            exact this (Finset.mem_insert_self _ _)
          · intro c hc
            rcases List.mem_cons.mp hc with rfl | hc2
            · exact h2
            · exact fun hmem => hnew c hc2 (Finset.mem_insert_of_mem hmem)
        · rintro ⟨hconf, hnodup, hseen⟩
          rw [List.map_cons, List.nodup_cons] at hnodup
          refine ⟨fun c hc => hconf c (List.mem_cons_of_mem _ hc), hnodup.2, ?_⟩
          intro c hc hmem
          rcases Finset.mem_insert.mp hmem with heq | hmem2
          · exact hnodup.1 (List.mem_map.mpr ⟨c, hc, heq⟩)
          · exact hseen c (List.mem_cons_of_mem _ hc) hmem2

/-- Loop characterization of the column pass of `is_valid_solution` (no
confidence check). -/
theorem scanCol_iff (s : NetState) (col : ℕ) (rows : List ℕ)
    (seen : Finset ℕ) :
    scanCol s col rows seen = true ↔
      (rows.map fun row => (get_most_likely_value s row col).1).Nodup ∧
      (∀ row ∈ rows, (get_most_likely_value s row col).1 ∉ seen) := by
  induction rows generalizing seen with
  | nil => simp [scanCol]
  | cons row rest ih =>
    simp only [scanCol]
    by_cases h2 : (get_most_likely_value s row col).1 ∈ seen
    · rw [if_pos h2]
      simp only [Bool.false_eq_true, false_iff]
      rintro ⟨_, hseen⟩
      exact hseen row (List.mem_cons_self row rest) h2
    · rw [if_neg h2, ih (insert (get_most_likely_value s row col).1 seen)]
      constructor
      · rintro ⟨hnodup, hnew⟩
        refine ⟨?_, ?_⟩
        · rw [List.map_cons, List.nodup_cons]
          refine ⟨?_, hnodup⟩
          intro hmem
          rcases List.mem_map.mp hmem with ⟨r, hr, hrv⟩
          have := hnew r hr
          rw [hrv] at this
          exact this (Finset.mem_insert_self _ _)
        · intro r hr
          rcases List.mem_cons.mp hr with rfl | hr2
          · exact h2
          · exact fun hmem => hnew r hr2 (Finset.mem_insert_of_mem hmem)
      · rintro ⟨hnodup, hseen⟩
        rw [List.map_cons, List.nodup_cons] at hnodup
        refine ⟨hnodup.2, ?_⟩
        intro r hr hmem
        rcases Finset.mem_insert.mp hmem with heq | hmem2
        · exact hnodup.1 (List.mem_map.mpr ⟨r, hr, heq⟩)
        · exact hseen r (List.mem_cons_of_mem _ hr) hmem2

/-- `is_valid_solution` in terms of `get_most_likely_value`: every row has
pairwise-distinct most-likely values with confidence at least 0.9, and
every column has pairwise-distinct most-likely values. -/
theorem is_valid_solution_iff_raw (s : NetState) :
    is_valid_solution s = true ↔
      (∀ row < s.grid_size,
        ((List.range s.grid_size).map fun col =>
          (get_most_likely_value s row col).1).Nodup ∧
        ∀ col < s.grid_size, 9 / 10 ≤ (get_most_likely_value s row col).2) ∧
      (∀ col < s.grid_size,
        ((List.range s.grid_size).map fun row =>
          (get_most_likely_value s row col).1).Nodup) := by
  unfold is_valid_solution
  rw [Bool.and_eq_true, List.all_eq_true, List.all_eq_true]
  constructor
  · rintro ⟨hr, hc⟩
    constructor
    · intro row hrow
      have h := (scanRow_iff s row (List.range s.grid_size) ∅).mp
        (hr row (List.mem_range.mpr hrow))
      exact ⟨h.2.1, fun col hcol => h.1 col (List.mem_range.mpr hcol)⟩
    · intro col hcol
      exact ((scanCol_iff s col (List.range s.grid_size) ∅).mp
        (hc col (List.mem_range.mpr hcol))).1
  · rintro ⟨hA, hB⟩
    constructor
    · intro row hrow
      apply (scanRow_iff s row (List.range s.grid_size) ∅).mpr
      exact ⟨fun col hcol =>
          (hA row (List.mem_range.mp hrow)).2 col (List.mem_range.mp hcol),
        (hA row (List.mem_range.mp hrow)).1,
        fun col _ => Finset.not_mem_empty _⟩
    · intro col hcol
      apply (scanCol_iff s col (List.range s.grid_size) ∅).mpr
      exact ⟨hB col (List.mem_range.mp hcol), fun row _ => Finset.not_mem_empty _⟩

/-- C8: `is_valid_solution()` returns true iff in every row the cells'
most-likely values — the 1-indexed first index achieving the maximum
probability — are pairwise distinct and every cell's maximum probability
is at least 0.9, and in every column the most-likely values are pairwise
distinct with no confidence threshold in the column pass.  (The length
hypothesis states that each in-range cell holds a `grid_size`-slot
distribution, as every reachable state does.) -/
theorem is_valid_solution_iff (s : NetState)
    (hlen : ∀ r < s.grid_size, ∀ c < s.grid_size,
      (s.probabilities (r, c)).length = s.grid_size) :
    is_valid_solution s = true ↔
      ((∀ row < s.grid_size,
        ((List.range s.grid_size).map fun col =>
          firstMaxIndex (s.probabilities (row, col)) + 1).Nodup ∧
        ∀ col < s.grid_size, (9 : ℚ) / 10 ≤
          (s.probabilities (row, col)).getD
            (firstMaxIndex (s.probabilities (row, col))) 0) ∧
      (∀ col < s.grid_size,
        ((List.range s.grid_size).map fun row =>
          firstMaxIndex (s.probabilities (row, col)) + 1).Nodup)) := by
  have hne : ∀ row col, row < s.grid_size → col < s.grid_size →
      s.probabilities (row, col) ≠ [] := fun row col hr hc =>
    List.ne_nil_of_length_pos (by rw [hlen row hr col hc]; omega)
  have h1 : ∀ row col, row < s.grid_size → col < s.grid_size →
      (get_most_likely_value s row col).1
        = firstMaxIndex (s.probabilities (row, col)) + 1 :=
    fun row col hr hc => by rw [gmlv_eq s row col (hne row col hr hc)]
  have h2 : ∀ row col, row < s.grid_size → col < s.grid_size →
      (get_most_likely_value s row col).2
        = (s.probabilities (row, col)).getD
            (firstMaxIndex (s.probabilities (row, col))) 0 :=
    fun row col hr hc => by rw [gmlv_eq s row col (hne row col hr hc)]
  rw [is_valid_solution_iff_raw s]
  constructor
  · rintro ⟨hA, hB⟩
    refine ⟨fun row hrow => ⟨?_, fun col hcol => ?_⟩, fun col hcol => ?_⟩
    · rw [← List.map_congr_left fun col hcol =>
        h1 row col hrow (List.mem_range.mp hcol)]
      exact (hA row hrow).1
    · rw [← h2 row col hrow hcol]
      exact (hA row hrow).2 col hcol
    · rw [← List.map_congr_left fun row hrow =>
        h1 row col (List.mem_range.mp hrow) hcol]
      exact hB col hcol
  · rintro ⟨hA, hB⟩
    refine ⟨fun row hrow => ⟨?_, fun col hcol => ?_⟩, fun col hcol => ?_⟩
    · rw [List.map_congr_left fun col hcol =>
        h1 row col hrow (List.mem_range.mp hcol)]
      exact (hA row hrow).1
    · rw [h2 row col hrow hcol]
      exact (hA row hrow).2 col hcol
    · rw [List.map_congr_left fun row hrow =>
        h1 row col (List.mem_range.mp hrow) hcol]
      exact hB col hcol

/-- Witness for C8 at the fresh 1×1 engine: its single cell holds [1], so
the solution is valid and the characterization agrees. -/
theorem is_valid_solution_iff_witness :
    (∀ r < (create 1).grid_size, ∀ c < (create 1).grid_size,
      ((create 1).probabilities (r, c)).length = (create 1).grid_size) ∧
    (is_valid_solution (create 1) = true ↔
      ((∀ row < (create 1).grid_size,
        ((List.range (create 1).grid_size).map fun col =>
          firstMaxIndex ((create 1).probabilities (row, col)) + 1).Nodup ∧
        ∀ col < (create 1).grid_size, (9 : ℚ) / 10 ≤
          ((create 1).probabilities (row, col)).getD
            (firstMaxIndex ((create 1).probabilities (row, col))) 0) ∧
      (∀ col < (create 1).grid_size,
        ((List.range (create 1).grid_size).map fun row =>
          firstMaxIndex ((create 1).probabilities (row, col)) + 1).Nodup))) :=
  ⟨by decide, is_valid_solution_iff (create 1) (by decide)⟩

end NetworkSettling
